import Mathlib

/-!
Verification of the lumen-digest classification core against its
natural-language specification.  The Python sources under
`backend/app/logic/` and `backend/tools/` are shallowly embedded here:
pure functions become Lean functions over `List Char` / `String` / `ℚ` / `ℝ`,
the mutable module state of the engine singleton becomes explicit state
passing, and the embedding model is abstracted as an association list of
per-category cosine scores (the scores are the only thing the decision
logic reads).
-/

/-- The ASCII whitespace characters recognised by Python's `\s` and `str.strip`
on the inputs modelled here. -/
def isWsChar (c : Char) : Bool :=
  c = ' ' || c = '\t' || c = '\n' || c = '\r' || c = '\x0b' || c = '\x0c'

/-- Python `str.isalpha` restricted to the character ranges the tokenizers of
this repository can produce (`WORD_RE`): ASCII letters and the Latin-1
letter ranges `À-Ö`, `Ø-ö`, `ø-ÿ`. -/
def pyIsAlpha (c : Char) : Bool :=
  c.isAlpha ||
    (0xC0 ≤ c.toNat && c.toNat ≤ 0xFF && c.toNat ≠ 0xD7 && c.toNat ≠ 0xF7)

/-- Python's regex `\w` on the same character ranges: letters, digits, underscore. -/
def pyIsWord (c : Char) : Bool :=
  pyIsAlpha c || c.isDigit || c = '_'

/-- `listStarts pat l` = the char list `l` begins with `pat` (regex literal match). -/
def listStarts : List Char → List Char → Bool
  | [], _ => true
  | _ :: _, [] => false
  | p :: ps, c :: cs => p == c && listStarts ps cs

/-- Case-insensitive `listStarts`: the pattern is given lowercase. -/
def ciStarts : List Char → List Char → Bool
  | [], _ => true
  | _ :: _, [] => false
  | p :: ps, c :: cs => p == c.toLower && ciStarts ps cs

/-- `containsSub pat l` = `pat` occurs somewhere in `l` (regex `search` on a literal). -/
def containsSub (pat : List Char) : List Char → Bool
  | [] => pat.isEmpty
  | c :: rest => listStarts pat (c :: rest) || containsSub pat rest

/-- Case-insensitive `containsSub` (the pattern is given lowercase). -/
def ciContainsSub (pat : List Char) : List Char → Bool
  | [] => pat.isEmpty
  | c :: rest => ciStarts pat (c :: rest) || ciContainsSub pat rest

/-- Split at the first occurrence of `stop`: `some (before, after)` with the
`stop` character itself dropped, `none` when `stop` does not occur. -/
def splitUntil (stop : Char) : List Char → Option (List Char × List Char)
  | [] => none
  | c :: rest =>
    if c = stop then some ([], rest)
    else (splitUntil stop rest).map (fun p => (c :: p.1, p.2))

/-- Split at the first (case-insensitive) occurrence of the literal `pat`:
`some (before, after)` with the matched span dropped. -/
def findCI (pat : List Char) : List Char → Option (List Char × List Char)
  | [] => if pat.isEmpty then some ([], []) else none
  | c :: rest =>
    if ciStarts pat (c :: rest) then some ([], (c :: rest).drop pat.length)
    else (findCI pat rest).map (fun p => (c :: p.1, p.2))

/-- Split at the first exact occurrence of the literal `pat` (Python `str.find`):
`some (before, fromMatch)` where `fromMatch` still begins with the match. -/
def findSplit (pat : List Char) : List Char → Option (List Char × List Char)
  | [] => if pat.isEmpty then some ([], []) else none
  | c :: rest =>
    if listStarts pat (c :: rest) then some ([], c :: rest)
    else (findSplit pat rest).map (fun p => (c :: p.1, p.2))

namespace Classifier

/-!  `backend/app/logic/classifier.py` -/

/-- The fragment of Python's `html.unescape` exercised by this repository's
inputs: the named references `&amp;` `&lt;` `&gt;` `&quot;` (with semicolon).
On text containing other references the real function does more, but on
ampersand-free text both are the identity, which is all the theorems use. -/
def htmlUnescape : List Char → List Char
  | '&' :: 'a' :: 'm' :: 'p' :: ';' :: rest => '&' :: htmlUnescape rest
  | '&' :: 'l' :: 't' :: ';' :: rest => '<' :: htmlUnescape rest
  | '&' :: 'g' :: 't' :: ';' :: rest => '>' :: htmlUnescape rest
  | '&' :: 'q' :: 'u' :: 'o' :: 't' :: ';' :: rest => '"' :: htmlUnescape rest
  | c :: rest => c :: htmlUnescape rest
  | [] => []

/-- Scanner for `TAG_RE = <[^>]+>` replaced by a space (`TAG_RE.sub(" ", raw)`).
State `none`: outside any candidate tag; state `some acc`: the characters seen
since the opening `<`, reversed.  An unclosed `<...` is emitted unchanged, and
`<>` does not match (the character class needs at least one character). -/
def tagGo : Option (List Char) → List Char → List Char
  | none, [] => []
  | none, c :: rest => if c = '<' then tagGo (some []) rest else c :: tagGo none rest
  | some acc, [] => '<' :: acc.reverse
  | some acc, c :: rest =>
    if c = '>' then
      if acc.isEmpty then '<' :: '>' :: tagGo none rest else ' ' :: tagGo none rest
    else tagGo (some (c :: acc)) rest

/-- `re.sub(r"<[^>]+>", " ", raw)`. -/
def stripTags (l : List Char) : List Char := tagGo none l

/-- Scanner for `re.sub(r"https?://\S+", " ", raw)`.  State `true`: inside the
`\S+` of a match being skipped. -/
def suGo : Bool → List Char → List Char
  | _, [] => []
  | true, c :: rest => if isWsChar c then c :: suGo false rest else suGo true rest
  | false, 'h' :: 't' :: 't' :: 'p' :: 's' :: ':' :: '/' :: '/' :: c :: rest =>
    if isWsChar c then
      'h' :: suGo false ('t' :: 't' :: 'p' :: 's' :: ':' :: '/' :: '/' :: c :: rest)
    else ' ' :: suGo true rest
  | false, 'h' :: 't' :: 't' :: 'p' :: ':' :: '/' :: '/' :: c :: rest =>
    if isWsChar c then
      'h' :: suGo false ('t' :: 't' :: 'p' :: ':' :: '/' :: '/' :: c :: rest)
    else ' ' :: suGo true rest
  | false, c :: rest => c :: suGo false rest

/-- `re.sub(r"https?://\S+", " ", raw)`. -/
def stripUrls (l : List Char) : List Char := suGo false l

/-- `WS_RE.sub(" ", raw)` with `WS_RE = \s+`: every maximal whitespace run
becomes a single space. -/
def subWs : List Char → List Char
  | [] => []
  | [c] => if isWsChar c then [' '] else [c]
  | c :: d :: rest =>
    if isWsChar c && isWsChar d then subWs (d :: rest)
    else (if isWsChar c then ' ' else c) :: subWs (d :: rest)

/-- Drop trailing whitespace (the right half of Python `str.strip`). -/
def dropEndWs (l : List Char) : List Char := (l.reverse.dropWhile isWsChar).reverse

/-- Python `str.strip()` on a char list. -/
def stripList (l : List Char) : List Char := dropEndWs (l.dropWhile isWsChar)

/-- `WS_RE.sub(" ", raw).strip()`. -/
def collapseWs (l : List Char) : List Char := stripList (subWs l)

/-- `clean_text` of `classifier.py`: entity decoding, tag removal, URL removal,
whitespace normalisation.  `None` inputs of the Python signature are the empty
string here ( `if not raw: return ""` ). -/
def clean_text (raw : String) : String :=
  if raw = "" then ""
  else String.mk (collapseWs (stripUrls (stripTags (htmlUnescape raw.toList))))

/-- The dict returned by `classify_text_with_scores`. -/
structure ClassificationResult where
  category_id : String
  confidence : ℚ
  needs_review : Bool
  reason : String
  runner_up_confidence : Option ℚ
  margin : Option ℚ
deriving DecidableEq

/-- One step of the best/second-best tracking loop of
`classify_text_with_scores` (strict comparisons, exactly as the source). -/
def scanStep (acc : Option String × ℚ × ℚ) (p : String × ℚ) : Option String × ℚ × ℚ :=
  if p.2 > acc.2.1 then (some p.1, p.2, acc.2.1)
  else if p.2 > acc.2.2 then (acc.1, acc.2.1, p.2)
  else acc

/-- The loop over `self.categories.items()`: `(best_category_id, highest_score,
second_score)` starting from `(None, -1.0, -1.0)`.  The cosine similarities of
the embedding model are abstracted as the input list. -/
def scanScores (scores : List (String × ℚ)) : Option String × ℚ × ℚ :=
  scores.foldl scanStep (none, -1, -1)

/-- `best_category_id` after the loop. -/
def bestIdOf (scores : List (String × ℚ)) : Option String := (scanScores scores).1

/-- `highest_score` after the loop. -/
def bestScoreOf (scores : List (String × ℚ)) : ℚ := (scanScores scores).2.1

/-- `second_score` after the loop. -/
def secondScoreOf (scores : List (String × ℚ)) : ℚ := (scanScores scores).2.2

/-- `margin = (highest_score - second_score) if second_score >= 0 else None`. -/
def marginOf (scores : List (String × ℚ)) : Option ℚ :=
  if 0 ≤ secondScoreOf scores then some (bestScoreOf scores - secondScoreOf scores)
  else none

/-- `accept = (highest_score >= threshold) or ((margin is not None) and
(margin >= margin_threshold))`. -/
def acceptOf (scores : List (String × ℚ)) (threshold margin_threshold : ℚ) : Bool :=
  decide (threshold ≤ bestScoreOf scores) ||
    (match marginOf scores with
     | some m => decide (margin_threshold ≤ m)
     | none => false)

/-- The body of `classify_text_with_scores` after the embedding call: the
dual accept rule and the two result dicts. -/
def classifyCore (scores : List (String × ℚ)) (threshold margin_threshold : ℚ)
    (low_bucket : String) : ClassificationResult :=
  let best := bestIdOf scores
  let hi := bestScoreOf scores
  let sec := secondScoreOf scores
  let margin := marginOf scores
  let accept : Bool := acceptOf scores threshold margin_threshold
  if !accept || best = none then
    { category_id := low_bucket
      confidence := hi
      needs_review := true
      reason := "low_confidence"
      runner_up_confidence := if sec < 0 then none else some sec
      margin := if sec < 0 then none else margin }
  else
    { category_id := best.getD low_bucket
      confidence := hi
      needs_review := false
      reason := "ok"
      runner_up_confidence := if sec < 0 then none else some sec
      margin := if sec < 0 then none else margin }

/-- `NewsClassifier.classify_text_with_scores`.  `scores` stands for the
category map `self.categories` together with the cosine similarity of the
(cleaned) text's embedding against each centroid, in iteration order; the
short-text gate runs before any of it is looked at. -/
def classify_text_with_scores (text : String) (scores : List (String × ℚ))
    (threshold margin_threshold : ℚ) (min_len : ℕ) (low_bucket : String) :
    ClassificationResult :=
  let t := clean_text text
  if t = "" || t.length < min_len then
    { category_id := low_bucket
      confidence := 0
      needs_review := true
      reason := "no_text"
      runner_up_confidence := none
      margin := none }
  else classifyCore scores threshold margin_threshold low_bucket

end Classifier

namespace Classifier

/-!  `NewsClassifier.load_taxonomy`: the centroid-cache decision and the
anchors normalisation.  Embedding the model calls is unnecessary: what the
claims are about is which branch runs and what the anchors of each node
become, so the load is modelled as the decision data flow. -/

/-- The fields `load_taxonomy` reads from a deserialised cache payload.
Every field is read with `payload.get(...)`, so an absent key is `none`. -/
structure CachePayload where
  model_name : Option String
  model : Option String
  taxonomy_path : Option String
  taxonomy_mtime : Option ℚ
  taxonomy_version : Option String
  device : Option String
  /-- The ids of `payload.get("categories", {})`; only emptiness matters here. -/
  categories : List String
deriving DecidableEq

/-- The live configuration the payload is compared against. -/
structure LiveCfg where
  model_name : String
  taxonomy_path : String
  taxonomy_mtime : ℚ
  taxonomy_version : Option String
  device : String
deriving DecidableEq

/-- `payload_model = payload.get("model_name") or payload.get("model")`:
Python `or` falls through on `None` and on the empty string. -/
def payloadModel (p : CachePayload) : Option String :=
  match p.model_name with
  | some s => if s = "" then p.model else some s
  | none => p.model

/-- The `cache_ok` conjunction of `load_taxonomy`: each payload field must be
`None` or equal to the live value (`payload.get(k) in (None, live)`). -/
def cache_ok (p : CachePayload) (live : LiveCfg) : Bool :=
  (decide (payloadModel p = none) || decide (payloadModel p = some live.model_name)) &&
  (decide (p.taxonomy_path = none) || decide (p.taxonomy_path = some live.taxonomy_path)) &&
  (decide (p.taxonomy_mtime = none) || decide (p.taxonomy_mtime = some live.taxonomy_mtime)) &&
  (decide (p.taxonomy_version = none) || decide (p.taxonomy_version = live.taxonomy_version)) &&
  (decide (p.device = none) || decide (p.device = some live.device))

/-- Which path `load_taxonomy` takes for the centroids. -/
inductive LoadOutcome where
  | fromCache
  | recomputed
deriving DecidableEq

/-- The cache branch of `load_taxonomy`: `cached = some p` stands for a
configured cache path whose file exists and deserialises to `p`.  The loaded
categories are used only when `cache_ok` holds and they are non-empty
(`if self.categories: return`); every other path recomputes the centroids. -/
def load_centroids_outcome (cached : Option CachePayload) (live : LiveCfg) : LoadOutcome :=
  match cached with
  | none => .recomputed
  | some p =>
    if cache_ok p live && !p.categories.isEmpty then .fromCache else .recomputed

/-- `torch.save` runs at the end of the recompute path iff `self.centroids_cache`
is truthy (`if self.centroids_cache:`). -/
def overwrites_cache (centroids_cache : Option String) (outcome : LoadOutcome) : Bool :=
  (match centroids_cache with
   | some s => !decide (s = "")
   | none => false) && decide (outcome = .recomputed)

/-- The `anchors` field of a taxonomy node as JSON: a plain list, a
per-language map, or anything else (string, number, null). -/
inductive AnchorsField where
  | list (xs : List String)
  | map (en fr : List String)
  | str (s : String)
  | num (n : Int)
  | null
deriving DecidableEq

/-- `if isinstance(anchors, dict): anchors = anchors.get("en", []) + anchors.get("fr", [])`:
only a dict is flattened, every other value passes through unchanged. -/
def flattenAnchors : AnchorsField → AnchorsField
  | .map en fr => .list (en ++ fr)
  | a => a

/-- One node of the taxonomy items list as `load_taxonomy` reads it. -/
structure TaxNode where
  id : Option String
  label_en : Option String
  anchors : AnchorsField
deriving DecidableEq

/-- The per-node body of the load loop: nodes with a falsy id are skipped
(`if not cat_id: continue`, which runs after the dict flattening but before the
prototype concatenation); for the rest, `prototype_texts = [label] + anchors`
raises `TypeError` unless the (flattened) anchors value is a list. -/
def processNode (n : TaxNode) : Except String (Option (String × List String)) :=
  match n.id with
  | none => .ok none
  | some cid =>
    if cid = "" then .ok none
    else
      match flattenAnchors n.anchors with
      | .list xs => .ok (some (cid, xs))
      | _ => .error "TypeError"

/-- The whole load loop: the first raising node aborts `load_taxonomy`. -/
def load_items : List TaxNode → Except String (List (String × List String))
  | [] => .ok []
  | n :: rest =>
    match processNode n with
    | .error e => .error e
    | .ok none => load_items rest
    | .ok (some entry) => (load_items rest).map (entry :: ·)

/-- A node has a truthy id (`cat_id` neither absent nor empty). -/
def truthyId (n : TaxNode) : Bool :=
  match n.id with
  | none => false
  | some s => !decide (s = "")

/-!  `get_classifier_engine`: the module-level singleton, modelled with the
global `_classifier_engine` as explicit state. -/

/-- The arguments of `get_classifier_engine`. -/
structure EngineArgs where
  taxonomy_path : String
  model_name : String
  device : String
  centroids_cache : Option String
deriving DecidableEq

/-- The process environment read on first construction. -/
structure EngineEnv where
  classifier_cache_dir : Option String
  classifier_centroids_cache : Option String
  shared_dir_exists : Bool
deriving DecidableEq

/-- `os.getenv(...) or None`: an unset or empty variable is `None`. -/
def envOpt (v : Option String) : Option String :=
  match v with
  | some s => if s = "" then none else some s
  | none => none

/-- Python truthiness of an optional string. -/
def truthyOpt (v : Option String) : Bool :=
  match v with
  | some s => !decide (s = "")
  | none => false

/-- The `NewsClassifier` instance, identified by its constructor arguments
(the construction itself only loads the model and the taxonomy). -/
structure Engine where
  taxonomy_path : String
  model_name : String
  device : String
  centroids_cache : Option String
  cache_dir : Option String
deriving DecidableEq

/-- The body of the `if _classifier_engine is None:` branch: resolve
`cache_dir` and `centroids_cache` from the environment and construct. -/
def mkEngine (args : EngineArgs) (env : EngineEnv) : Engine :=
  let cc0 := if truthyOpt args.centroids_cache then args.centroids_cache
             else envOpt env.classifier_centroids_cache
  let cc := if !truthyOpt cc0 && env.shared_dir_exists then
              some "/shared/lumen_classifier_centroids.pt"
            else cc0
  { taxonomy_path := args.taxonomy_path
    model_name := args.model_name
    device := args.device
    centroids_cache := cc
    cache_dir := envOpt env.classifier_cache_dir }

/-- `get_classifier_engine` with the module global passed in and out:
`st = none` is a process in which no engine was built yet. -/
def get_classifier_engine (st : Option Engine) (args : EngineArgs) (env : EngineEnv) :
    Engine × Option Engine :=
  match st with
  | some e => (e, some e)
  | none =>
    let e := mkEngine args env
    (e, some e)

end Classifier

namespace AnchorExtraction

/-!  `backend/app/logic/anchor_extraction.py`: the phrase-validity predicate. -/

def STOP_EN : List String :=
  ["a","an","and","are","as","at","be","but","by","for","from","has","have","he","her","his","i",
   "in","into","is","it","its","of","on","or","that","the","their","they","this","to","was","were",
   "will","with","you","your","we","our","not","than","then","so","if","about","after","before",
   "over","under","between","because","also","more","most","can","could","should","would"]

def STOP_FR : List String :=
  ["un","une","des","et","ou","à","au","aux","de","du","des","dans","en","sur","pour","par","avec",
   "sans","ce","ces","cet","cette","qui","que","quoi","dont","où","il","elle","ils","elles","on","nous",
   "vous","je","tu","me","te","se","lui","leur","les","la","le","d","l","c","n","ne","pas","plus",
   "moins","comme","mais","donc","or","ni","car","ainsi","été","être","avait","ont","a","est","sont",
   "sera","seront","était","étaient","près","vers","chez"]

def GENERIC_DENY_EN : List String :=
  ["world","people","issue","issues","action","actions","group","groups","system","systems",
   "general","public","national","international","report","reports","news","today","said","says"]

/-- An apostrophe character, for string tokens that contain one. -/
def apoS : String := String.mk [Char.ofNat 39]

def GENERIC_DENY_FR : List String :=
  ["monde","gens","personnes","question","questions","action","actions","groupe","groupes",
   "système","systèmes","général","publique","national","internationale","rapport","rapports",
   "actualités", "aujourd" ++ apoS ++ "hui"]

def DENY_TOKENS : List String :=
  ["https","http","www","com","html","htm","php","asp",
   "nytimes","wsj","ft","bloomberg","reuters","apnews","cnn","bbc",
   "advertisement","subscribe","subscription","newsletter","sign","signup","sign-up","gift",
   "read","more","cookie","cookies","privacy","terms","share","link",
   "facebook","twitter","instagram","tiktok","youtube",
   "after-bottom","afterbottom","before-bottom","beforebottom",
   "verified"]

/-- The alternatives of `DENY_PHRASE_RE` (a case-insensitive `search`). -/
def DENY_PHRASE_ALTS : List String :=
  ["after-bottom","before-bottom","continue reading","sign up","newsletter",
   "advertisement","subscribe","subscription"]

/-- `DENY_PHRASE_RE.search(phrase)` as a boolean. -/
def deny_phrase_hit (phrase : String) : Bool :=
  DENY_PHRASE_ALTS.any (fun alt => ciContainsSub alt.toList phrase.toList)

/-- `boundary_stopword` of `anchor_extraction.py`. -/
def boundary_stopword (phrase_toks : List String) (stop : List String) : Bool :=
  match phrase_toks with
  | [] => true
  | t :: rest =>
    stop.contains t || stop.contains ((t :: rest).getLastD "") ||
      (t :: rest).all (fun x => stop.contains x)

/-- `contains_generic` of `anchor_extraction.py`. -/
def contains_generic (phrase_toks : List String) (lang : String) : Bool :=
  let deny := if lang = "en" then GENERIC_DENY_EN else GENERIC_DENY_FR
  phrase_toks.any (fun t => deny.contains t)

/-- `numeric_heavy`: at least `max(1, len // 2)` tokens contain a digit. -/
def numeric_heavy (phrase_toks : List String) : Bool :=
  let digits := (phrase_toks.filter (fun t => t.toList.any Char.isDigit)).length
  decide (max 1 (phrase_toks.length / 2) ≤ digits)

/-- Python `str.isalpha` on a token (empty strings are not alphabetic). -/
def isAlphaTok (t : String) : Bool :=
  !decide (t = "") && t.toList.all pyIsAlpha

/-- `valid_phrase` of `anchor_extraction.py`, check for check in source order. -/
def valid_phrase (phrase_toks : List String) (lang : String) (min_chars : ℕ) : Bool :=
  let stop := if lang = "en" then STOP_EN else STOP_FR
  let phrase := String.intercalate " " phrase_toks
  if phrase.length < min_chars then false
  else if boundary_stopword phrase_toks stop then false
  else if contains_generic phrase_toks lang then false
  else if numeric_heavy phrase_toks then false
  else if deny_phrase_hit phrase then false
  else if phrase_toks.any (fun t => DENY_TOKENS.contains t) then false
  else if decide (lang = "en") && phrase_toks.any (fun t => decide (t.length = 1)) then false
  else if phrase_toks.length = 1 then
    match phrase_toks with
    | t :: _ => isAlphaTok t && decide (6 ≤ t.length)
    | [] => false
  else true

end AnchorExtraction

namespace BuildL1Anchors

/-!  `backend/tools/build_l1_anchors.py`: its own stopword and deny lists, its
own `valid_phrase` (which returns a verdict with a reason string), and the
log-odds scoring. -/

def STOP_EN : List String :=
  ["a","an","and","are","as","at","be","but","by","for","from","has","have","he","her","his","i",
   "in","into","is","it","its","of","on","or","that","the","their","they","this","to","was","were",
   "will","with","you","your","we","our","not","than","then","so","if","about","after","before",
   "over","under","between","because","also","more","most","can","could","should","would"]

def STOP_FR : List String :=
  ["un","une","des","et","ou","à","au","aux","de","du","des","dans","en","sur","pour","par","avec",
   "sans","ce","ces","cet","cette","qui","que","quoi","dont","où","il","elle","ils","elles","on","nous",
   "vous","je","tu","me","te","se","lui","leur","les","la","le","d","l","c","n","ne","pas","plus",
   "moins","comme","mais","donc","or","ni","car","ainsi","été","être","avait","ont","a","est","sont",
   "sera","seront","était","étaient","près","vers","chez"]

def GENERIC_DENY_EN : List String :=
  ["world","people","issue","issues","action","actions","group","groups","system","systems","many","various",
   "such","including","general","public","national","international","report","reports","news","today",
   "week","month","year","said","says"]

def GENERIC_DENY_FR : List String :=
  ["monde","gens","personnes","question","questions","action","actions","groupe","groupes","système","systèmes",
   "plusieurs","divers","général","publique","national","internationale","rapport","rapports","actualités",
   "aujourd" ++ AnchorExtraction.apoS ++ "hui","semaine","mois","an","a dit"]

/-- `boundary_stopword` of `build_l1_anchors.py` (same behaviour, written with
an early return in the source). -/
def boundary_stopword (phrase_toks : List String) (stop : List String) : Bool :=
  match phrase_toks with
  | [] => true
  | t :: rest =>
    stop.contains t || stop.contains ((t :: rest).getLastD "") ||
      (t :: rest).all (fun x => stop.contains x)

/-- `contains_generic` of `build_l1_anchors.py`. -/
def contains_generic (phrase_toks : List String) (lang : String) : Bool :=
  let deny := if lang = "en" then GENERIC_DENY_EN else GENERIC_DENY_FR
  phrase_toks.any (fun t => deny.contains t)

/-- `valid_phrase` of `build_l1_anchors.py`: returns `(verdict, reason)`. -/
def valid_phrase (phrase_toks : List String) (lang : String) (min_chars : ℕ) :
    Bool × String :=
  let stop := if lang = "en" then STOP_EN else STOP_FR
  if phrase_toks.isEmpty then (false, "empty")
  else
    let phrase := String.intercalate " " phrase_toks
    if phrase.length < min_chars then (false, "too_short")
    else if boundary_stopword phrase_toks stop then (false, "boundary_stopword")
    else if contains_generic phrase_toks lang then (false, "contains_generic")
    else if phrase_toks.length = 1 then
      match phrase_toks with
      | t :: _ =>
        if decide (5 ≤ t.length) && AnchorExtraction.isAlphaTok t then (true, "ok_single")
        else (false, "single_word")
      | [] => (false, "single_word")
    else (true, "ok")

/-- `log_odds` of `build_l1_anchors.py`: add-one smoothed log odds of the
in-category versus out-of-category document proportions. -/
noncomputable def log_odds (df_in n_in df_out n_out : ℕ) : ℝ :=
  let p_in : ℝ := ((df_in : ℝ) + 1) / ((n_in : ℝ) + 2)
  let p_out : ℝ := ((df_out : ℝ) + 1) / ((n_out : ℝ) + 2)
  Real.log (p_in / p_out)

/-- The candidate score assembled in `main`: `s = log_odds(...)` followed by
`s += 0.08 * (len(phrase_ng) - 1)`. -/
noncomputable def anchor_candidate_score (ngram_len df_in n_in df_out n_out : ℕ) : ℝ :=
  log_odds df_in n_in df_out n_out + 0.08 * ((ngram_len : ℝ) - 1)

end BuildL1Anchors

namespace ArticleCleaning

/-!  `backend/app/logic/article_cleaning.py`.  The regex substitutions are
embedded as explicit scanners; the ones that need lookahead with backtracking
carry a fuel argument that starts at `length + 1`, which is ample because
every step consumes at least one input character. -/

/-- `text.replace("\r\n", "\n").replace("\r", "\n")`. -/
def nlNorm : List Char → List Char
  | [] => []
  | '\r' :: '\n' :: rest => '\n' :: nlNorm rest
  | '\r' :: rest => '\n' :: nlNorm rest
  | c :: rest => c :: nlNorm rest

/-- Python `text.split("\n")` (an empty text gives one empty part). -/
def splitNl : List Char → List (List Char)
  | [] => [[]]
  | '\n' :: rest => [] :: splitNl rest
  | c :: rest =>
    match splitNl rest with
    | [] => [[c]]
    | l :: ls => (c :: l) :: ls

/-- `"\n".join(...)`. -/
def joinNl : List (List Char) → List Char
  | [] => []
  | [l] => l
  | l :: ls => l ++ '\n' :: joinNl ls

/-- Python `str.rstrip()`. -/
def rstripL (l : List Char) : List Char := Classifier.dropEndWs l

/-- `normalize_whitespace` of `article_cleaning.py`. -/
def normalize_whitespace (s : String) : String :=
  String.mk (Classifier.stripList (joinNl ((splitNl (nlNorm s.toList)).map rstripL)))

/-- Lowercasing, for the case-insensitive line patterns. -/
def lowerL (l : List Char) : List Char := l.map Char.toLower

/-- The regex `\b` test against the character that follows a match fragment:
holds at end of input or before a non-word character. -/
def bOkAt : List Char → Bool
  | [] => true
  | c :: _ => !pyIsWord c

/-- Scanner for `RE_HTML_FIGURE_BLOCK = <figure\b[\s\S]*?</figure>` (case
insensitive), replaced by a space.  The non-greedy body reaches the earliest
closing tag; an opening tag with no close never matches. -/
def figGo : ℕ → List Char → List Char
  | 0, l => l
  | _ + 1, [] => []
  | fuel + 1, c :: rest =>
    (if ciStarts "<figure".toList (c :: rest) && bOkAt ((c :: rest).drop 7) then
      match findCI "</figure>".toList ((c :: rest).drop 7) with
      | some (_, after) => ' ' :: figGo fuel after
      | none => c :: figGo fuel rest
    else c :: figGo fuel rest)

/-- Scanner for `RE_MD_IMAGE = !\[[^\]]*\]\([^)]+\)` replaced by a space.  On
a failed candidate the engine advances one character and rescans from the
following `[`. -/
def mdImgGo : ℕ → List Char → List Char
  | 0, l => l
  | _ + 1, [] => []
  | fuel + 1, '!' :: '[' :: rest =>
    (match splitUntil ']' rest with
     | some (_, after1) =>
       (match after1 with
        | '(' :: rest2 =>
          (match splitUntil ')' rest2 with
           | some (inner, after2) =>
             if inner.isEmpty then '!' :: mdImgGo fuel ('[' :: rest)
             else ' ' :: mdImgGo fuel after2
           | none => '!' :: mdImgGo fuel ('[' :: rest))
        | _ => '!' :: mdImgGo fuel ('[' :: rest))
     | none => '!' :: mdImgGo fuel ('[' :: rest))
  | fuel + 1, c :: rest => c :: mdImgGo fuel rest

/-- Scanner for `RE_MD_LINK = \[([^\]]+)\]\([^)]+\)` replaced by the link
text (group 1).  The replacement is emitted verbatim and not rescanned,
exactly as `re.sub` does. -/
def mdLinkGo : ℕ → List Char → List Char
  | 0, l => l
  | _ + 1, [] => []
  | fuel + 1, '[' :: rest =>
    (match splitUntil ']' rest with
     | some (alt, after1) =>
       if alt.isEmpty then '[' :: mdLinkGo fuel rest
       else
         (match after1 with
          | '(' :: rest2 =>
            (match splitUntil ')' rest2 with
             | some (inner, after2) =>
               if inner.isEmpty then '[' :: mdLinkGo fuel rest
               else alt ++ mdLinkGo fuel after2
             | none => '[' :: mdLinkGo fuel rest)
          | _ => '[' :: mdLinkGo fuel rest)
     | none => '[' :: mdLinkGo fuel rest)
  | fuel + 1, c :: rest => c :: mdLinkGo fuel rest

/-- The extension alternation `\.(jpg|jpeg|png|webp)\b` tried at one dot, in
source order, returning the extension length. -/
def extAfterDot (l : List Char) : Option ℕ :=
  if ciStarts "jpg".toList l && bOkAt (l.drop 3) then some 3
  else if ciStarts "jpeg".toList l && bOkAt (l.drop 4) then some 4
  else if ciStarts "png".toList l && bOkAt (l.drop 3) then some 3
  else if ciStarts "webp".toList l && bOkAt (l.drop 4) then some 4
  else none

/-- The greedy `\S+\.(ext)\b` backtracking inside one non-space run: the
rightmost dot index `j ≥ 1` whose suffix matches an extension, with the
extension length. -/
def searchDot (run : List Char) : ℕ → Option (ℕ × ℕ)
  | 0 => none
  | j + 1 =>
    if run.getD (j + 1) ' ' = '.' then
      match extAfterDot (run.drop (j + 2)) with
      | some k => some (j + 1, k)
      | none => searchDot run j
    else searchDot run j

/-- The prefix alternation `(static\d{2}\.|images\.)` of `RE_IMAGE_PATH_JUNK`,
returning the matched length. -/
def junkPrefixLen (l : List Char) : Option ℕ :=
  if ciStarts "static".toList l && (l.getD 6 ' ').isDigit && (l.getD 7 ' ').isDigit
      && l.getD 8 ' ' = '.' then some 9
  else if ciStarts "images.".toList l then some 7
  else none

/-- Scanner for `RE_IMAGE_PATH_JUNK = \b(static\d{2}\.|images\.)\S+\.(jpg|jpeg|png|webp)\b`
replaced by a space.  `prev` is the previous original character, for the
leading word boundary. -/
def junkGo : ℕ → Option Char → List Char → List Char
  | 0, _, l => l
  | _ + 1, _, [] => []
  | fuel + 1, prev, c :: rest =>
    (if (match prev with
         | none => true
         | some p => !pyIsWord p) then
      match junkPrefixLen (c :: rest) with
      | some n =>
        (let rem := (c :: rest).drop n
         let run := rem.takeWhile (fun ch => !isWsChar ch)
         match searchDot run (run.length - 1) with
         | some (j, k) => ' ' :: junkGo fuel (some (run.getD (j + k) ' ')) (rem.drop (j + 1 + k))
         | none => c :: junkGo fuel (some c) rest)
      | none => c :: junkGo fuel (some c) rest
    else c :: junkGo fuel (some c) rest)

def figSub (l : List Char) : List Char := figGo (l.length + 1) l

def mdImgSub (l : List Char) : List Char := mdImgGo (l.length + 1) l

def mdLinkSub (l : List Char) : List Char := mdLinkGo (l.length + 1) l

def junkSub (l : List Char) : List Char := junkGo (l.length + 1) none l

/-- `RE_BRACKETED_READ = ^\s*\[\*?(read|from opinion)\b.*$` (case insensitive,
matched against the stripped line). -/
def bracketedRead (t : List Char) : Bool :=
  match lowerL t with
  | '[' :: r =>
    let r2 := match r with
      | '*' :: rr => rr
      | _ => r
    (listStarts "read".toList r2 && bOkAt (r2.drop 4)) ||
      (listStarts "from opinion".toList r2 && bOkAt (r2.drop 12))
  | _ => false

/-- `remove_line_if_boilerplate`: `RE_AD`, the eight
`BOILERPLATE_LINE_PATTERNS`, and `RE_BRACKETED_READ`, each matched against
`line.strip()` (case insensitive, anchored at the start). -/
def remove_line_if_boilerplate (line : List Char) : Bool :=
  let t := Classifier.stripList line
  let s := lowerL t
  decide (s = "advertisement".toList) || decide (s = "skip advertisement".toList) ||
  decide (s = "how are we doing?".toList) ||
  decide (s = "like this email?".toList) ||
  listStarts "forward it to your friends".toList s ||
  listStarts "sign up here".toList s ||
  decide (s = "related content".toList) ||
  listStarts ("we" ++ AnchorExtraction.apoS ++ "re eager to have your thoughts").toList s ||
  (listStarts "please send them to ".toList s && (s.drop 20).contains '@') ||
  (listStarts "please send your thoughts to ".toList s && (s.drop 29).contains '@') ||
  (listStarts "ian austen".toList s && containsSub "reports on canada".toList (s.drop 10)) ||
  bracketedRead t

/-- `RE_HEADING = ^\s{0,3}#{1,6}\s+` matched against the stripped line. -/
def isHeading (t : List Char) : Bool :=
  let hs := t.takeWhile (fun c => c = '#')
  decide (1 ≤ hs.length) && decide (hs.length ≤ 6) &&
    (match t.drop hs.length with
     | c :: _ => isWsChar c
     | [] => false)

/-- One alternative of `RE_READ_COLON = ^\s*(read|from opinion)\s*:\s*`
(case insensitive): the remainder after the removed prefix, or `none`. -/
def readColonTry (pat : List Char) (t : List Char) : Option (List Char) :=
  if listStarts pat (lowerL t) then
    match (t.drop pat.length).dropWhile isWsChar with
    | ':' :: rest => some (rest.dropWhile isWsChar)
    | _ => none
  else none

/-- `RE_READ_COLON.sub("", line)`: anchored, so at most the one leading
occurrence is removed. -/
def readColonSub (t : List Char) : List Char :=
  match readColonTry "read".toList t with
  | some r => r
  | none =>
    match readColonTry "from opinion".toList t with
    | some r => r
    | none => t

/-- The `cut_after_heading` truncation (`text.find`; an empty heading string
is falsy and skipped). -/
def applyCut (t : List Char) (cut : Option String) : List Char :=
  match cut with
  | none => t
  | some h =>
    if h = "" then t
    else
      match findSplit h.toList t with
      | some (before, _) => Classifier.stripList before
      | none => t

/-- The per-line loop of `clean_text_rules`. -/
def processLines : List (List Char) → List (List Char)
  | [] => []
  | raw :: rest =>
    let line := Classifier.stripList raw
    if line.isEmpty then [] :: processLines rest
    else if remove_line_if_boilerplate line then processLines rest
    else if isHeading line then line :: processLines rest
    else
      let l2 := Classifier.stripList (readColonSub line)
      if l2.isEmpty then processLines rest else l2 :: processLines rest

/-- `clean_text_rules` of `article_cleaning.py`, step for step in source
order (the URL rule is the same `https?://\S+` as the classifier cleaner). -/
def clean_text_rules (text : String) (cut_after_heading : Option String) : String :=
  let t1 := (normalize_whitespace text).toList
  let t2 := figSub t1
  let t3 := mdImgSub t2
  let t4 := mdLinkSub t3
  let t5 := Classifier.stripUrls t4
  let t6 := junkSub t5
  let t7 := applyCut t6 cut_after_heading
  normalize_whitespace (String.mk (joinNl (processLines (splitNl t7))))

end ArticleCleaning

namespace Classifier

/-!  Properties of the whitespace collapse: `WS_RE.sub(" ", s).strip()` is
idempotent.  `wsOk` is the normal form the substitution produces: every
whitespace character is a space and no two whitespace characters are
adjacent. -/

/-- No two adjacent whitespace characters. -/
def wsR (a b : Char) : Prop := ¬(isWsChar a = true ∧ isWsChar b = true)

/-- The normal form of `subWs`. -/
def wsOk (l : List Char) : Prop :=
  (∀ c ∈ l, isWsChar c = true → c = ' ') ∧ l.Chain' wsR

theorem subWs_ne_nil {d : Char} {rest : List Char} : subWs (d :: rest) ≠ [] := by
  induction rest generalizing d with
  | nil => by_cases hd : isWsChar d <;> simp [subWs, hd]
  | cons e t ih =>
    by_cases hde : isWsChar d && isWsChar e
    · simpa [subWs, hde] using ih
    · simp [subWs, hde]

theorem subWs_head_ws {d : Char} {rest : List Char} {e : Char}
    (h : (subWs (d :: rest)).head? = some e) : isWsChar e = isWsChar d := by
  induction rest generalizing d with
  | nil =>
    by_cases hd : isWsChar d
    · simp [subWs, hd] at h
      rw [← h, hd]
      decide
    · simp [subWs, hd] at h
      rw [← h]
  | cons f t ih =>
    by_cases hdf : isWsChar d && isWsChar f
    · rw [subWs, if_pos hdf] at h
      have := ih h
      simp only [Bool.and_eq_true] at hdf
      rw [this, hdf.2, hdf.1]
    · rw [subWs, if_neg hdf] at h
      simp only [List.head?_cons, Option.some.injEq] at h
      by_cases hd : isWsChar d
      · simp [hd] at h
        rw [← h, hd]
        decide
      · simp [hd] at h
        rw [← h]

theorem subWs_wsOk (l : List Char) : wsOk (subWs l) := by
  induction l with
  | nil => exact ⟨by simp [subWs], by simp [subWs]⟩
  | cons c rest ih =>
    cases rest with
    | nil =>
      constructor
      · intro x hx hwx
        by_cases hc : isWsChar c <;> simp [subWs, hc] at hx <;> subst hx
        · rfl
        · exact absurd hwx (by simp [hc])
      · by_cases hc : isWsChar c <;> simp [subWs, hc]
    | cons d t =>
      by_cases hcd : isWsChar c && isWsChar d
      · rw [subWs, if_pos hcd]; exact ih
      · rw [subWs, if_neg hcd]
        constructor
        · intro x hx hwx
          rcases List.mem_cons.mp hx with hx | hx
          · subst hx
            by_cases hc : isWsChar c
            · simp [hc]
            · rw [if_neg hc] at hwx; exact absurd hwx (by simp [hc])
          · exact ih.1 x hx hwx
        · rw [List.chain'_cons']
          refine ⟨?_, ih.2⟩
          intro b hb
          have hbd := subWs_head_ws hb
          intro hcontra
          apply hcd
          simp only [Bool.and_eq_true]
          refine ⟨?_, by rw [← hbd]; exact hcontra.2⟩
          by_cases hc : isWsChar c
          · exact hc
          · rw [if_neg hc] at hcontra; exact absurd hcontra.1 (by simp [hc])

theorem subWs_eq_self {l : List Char} (h : wsOk l) : subWs l = l := by
  induction l with
  | nil => rfl
  | cons c rest ih =>
    cases rest with
    | nil =>
      by_cases hc : isWsChar c
      · simp [subWs, hc, h.1 c (by simp) hc]
      · simp [subWs, hc]
    | cons d t =>
      have hnb : ¬(isWsChar c && isWsChar d) = true := by
        have := (List.chain'_cons.mp h.2).1
        simp only [wsR] at this
        simp only [Bool.and_eq_true]
        exact fun hx => this hx
      have htail : wsOk (d :: t) :=
        ⟨fun x hx hwx => h.1 x (List.mem_cons_of_mem _ hx) hwx, (List.chain'_cons.mp h.2).2⟩
      rw [subWs, if_neg hnb, ih htail]
      by_cases hc : isWsChar c
      · rw [if_pos hc, h.1 c (by simp) hc]
      · rw [if_neg hc]

theorem wsOk_dropWhile (p : Char → Bool) {l : List Char} (h : wsOk l) :
    wsOk (l.dropWhile p) :=
  ⟨fun c hc hwc => h.1 c (List.Sublist.mem hc (List.dropWhile_sublist p)) hwc,
   h.2.suffix (List.dropWhile_suffix p)⟩

theorem wsOk_reverse {l : List Char} (h : wsOk l) : wsOk l.reverse := by
  constructor
  · intro c hc hwc
    exact h.1 c (List.mem_reverse.mp hc) hwc
  · rw [List.chain'_reverse]
    exact h.2.imp fun a b hab => fun hx => hab ⟨hx.2, hx.1⟩

theorem wsOk_dropEndWs {l : List Char} (h : wsOk l) : wsOk (dropEndWs l) :=
  wsOk_reverse (wsOk_dropWhile _ (wsOk_reverse h))

theorem wsOk_stripList {l : List Char} (h : wsOk l) : wsOk (stripList l) :=
  wsOk_dropEndWs (wsOk_dropWhile _ h)

theorem head?_dropWhile_not (p : Char → Bool) :
    ∀ (l : List Char) (a : Char), (l.dropWhile p).head? = some a → p a = false := by
  intro l
  induction l with
  | nil => simp [List.dropWhile]
  | cons c t ih =>
    intro a h
    by_cases hc : p c
    · rw [List.dropWhile_cons, if_pos hc] at h
      exact ih a h
    · rw [List.dropWhile_cons, if_neg hc] at h
      simp only [List.head?_cons, Option.some.injEq] at h
      rw [← h]
      simpa using hc

theorem dropWhile_eq_self_of_head (p : Char → Bool) {l : List Char}
    (h : ∀ a, l.head? = some a → p a = false) : l.dropWhile p = l := by
  cases l with
  | nil => rfl
  | cons c t => rw [List.dropWhile_cons, if_neg (by simp [h c rfl])]

theorem dropEndWs_eq_self {l : List Char}
    (h : ∀ a, l.getLast? = some a → isWsChar a = false) : dropEndWs l = l := by
  unfold dropEndWs
  rw [dropWhile_eq_self_of_head isWsChar (fun a ha => h a (by rwa [List.head?_reverse] at ha)),
    List.reverse_reverse]

theorem getLast?_dropEndWs {l : List Char} {a : Char}
    (h : (dropEndWs l).getLast? = some a) : isWsChar a = false := by
  unfold dropEndWs at h
  rw [List.getLast?_reverse] at h
  exact head?_dropWhile_not _ _ _ h

theorem dropEndWs_append (l : List Char) :
    l = dropEndWs l ++ (l.reverse.takeWhile isWsChar).reverse := by
  unfold dropEndWs
  conv_lhs => rw [← l.reverse_reverse,
    ← List.takeWhile_append_dropWhile (p := isWsChar) (l := l.reverse)]
  rw [List.reverse_append]

theorem head?_dropEndWs {l : List Char} {a : Char}
    (h : (dropEndWs l).head? = some a) : l.head? = some a := by
  rcases hd : dropEndWs l with _ | ⟨b, t⟩
  · rw [hd] at h; exact absurd h (by simp)
  · rw [hd] at h
    simp only [List.head?_cons, Option.some.injEq] at h
    conv_lhs => rw [dropEndWs_append l, hd]
    simp [h]

theorem stripList_head_not_ws {l : List Char} {a : Char}
    (h : (stripList l).head? = some a) : isWsChar a = false :=
  head?_dropWhile_not _ _ _ (head?_dropEndWs h)

theorem stripList_getLast_not_ws {l : List Char} {a : Char}
    (h : (stripList l).getLast? = some a) : isWsChar a = false :=
  getLast?_dropEndWs h

theorem stripList_idem (l : List Char) : stripList (stripList l) = stripList l := by
  conv_lhs => rw [stripList,
    dropWhile_eq_self_of_head isWsChar (fun a ha => stripList_head_not_ws ha)]
  exact dropEndWs_eq_self (fun a ha => stripList_getLast_not_ws ha)

theorem collapseWs_idem (l : List Char) : collapseWs (collapseWs l) = collapseWs l := by
  conv_lhs => rw [collapseWs, collapseWs,
    subWs_eq_self (wsOk_stripList (subWs_wsOk l))]
  rw [stripList_idem]
  rfl

theorem mem_subWs {l : List Char} {c : Char} (h : c ∈ subWs l) : c ∈ l ∨ c = ' ' := by
  induction l with
  | nil => simp [subWs] at h
  | cons a rest ih =>
    cases rest with
    | nil =>
      by_cases ha : isWsChar a <;> simp [subWs, ha] at h
      · exact Or.inr h
      · exact Or.inl (by simp [h])
    | cons d t =>
      by_cases had : isWsChar a && isWsChar d
      · rw [subWs, if_pos had] at h
        rcases ih h with hx | hx
        · exact Or.inl (List.mem_cons_of_mem _ hx)
        · exact Or.inr hx
      · rw [subWs, if_neg had] at h
        rcases List.mem_cons.mp h with hx | hx
        · by_cases ha : isWsChar a
          · rw [if_pos ha] at hx; exact Or.inr hx
          · rw [if_neg ha] at hx; exact Or.inl (by simp [hx])
        · rcases ih hx with hy | hy
          · exact Or.inl (List.mem_cons_of_mem _ hy)
          · exact Or.inr hy

theorem mem_stripList {l : List Char} {c : Char} (h : c ∈ stripList l) : c ∈ l := by
  unfold stripList dropEndWs at h
  have h1 := List.mem_reverse.mp h
  have h2 := List.Sublist.mem h1 (List.dropWhile_sublist isWsChar)
  have h3 := List.mem_reverse.mp h2
  exact List.Sublist.mem h3 (List.dropWhile_sublist isWsChar)

theorem mem_collapseWs {l : List Char} {c : Char} (h : c ∈ collapseWs l) :
    c ∈ l ∨ c = ' ' :=
  mem_subWs (mem_stripList h)

/-!  The three substitutions of `clean_text` are the identity on inputs free
of the characters that can start a match. -/

theorem htmlUnescape_eq_self {l : List Char} (h : '&' ∉ l) : htmlUnescape l = l := by
  induction l with
  | nil => rfl
  | cons c rest ih =>
    have hc : c ≠ '&' := fun e => h (by simp [e])
    have hr : '&' ∉ rest := fun m => h (List.mem_cons_of_mem _ m)
    rw [htmlUnescape.eq_5 c rest (fun _ e _ => hc e) (fun _ e _ => hc e)
      (fun _ e _ => hc e) (fun _ e _ => hc e), ih hr]

theorem tagGo_none_eq_self {l : List Char} (h : '<' ∉ l) : tagGo none l = l := by
  induction l with
  | nil => rfl
  | cons c rest ih =>
    have hc : c ≠ '<' := fun e => h (by simp [e])
    have hr : '<' ∉ rest := fun m => h (List.mem_cons_of_mem _ m)
    rw [tagGo, if_neg hc, ih hr]

theorem suGo_false_eq_self {l : List Char} (h : ':' ∉ l) : suGo false l = l := by
  induction l with
  | nil => rfl
  | cons c rest ih =>
    have hr : ':' ∉ rest := fun m => h (List.mem_cons_of_mem _ m)
    rw [suGo.eq_5 c rest (fun c1 r1 _ hre => hr (by rw [hre]; simp))
      (fun c1 r1 _ hre => hr (by rw [hre]; simp)), ih hr]

theorem stripTags_eq_self {l : List Char} (h : '<' ∉ l) : stripTags l = l :=
  tagGo_none_eq_self h

theorem stripUrls_eq_self {l : List Char} (h : ':' ∉ l) : stripUrls l = l :=
  suGo_false_eq_self h

/-- On inputs with no ampersand, no angle bracket and no colon, only the
whitespace collapse of `clean_text` acts, and it is idempotent. -/
theorem clean_text_idem_restricted (x : String)
    (h : ∀ c ∈ x.toList, c ≠ '&' ∧ c ≠ '<' ∧ c ≠ ':') :
    clean_text (clean_text x) = clean_text x := by
  by_cases hx : x = ""
  · subst hx; rfl
  · have hamp : '&' ∉ x.toList := fun m => (h _ m).1 rfl
    have hlt : '<' ∉ x.toList := fun m => (h _ m).2.1 rfl
    have hcol : ':' ∉ x.toList := fun m => (h _ m).2.2 rfl
    have hct : clean_text x = String.mk (collapseWs x.toList) := by
      rw [clean_text, if_neg hx, htmlUnescape_eq_self hamp, stripTags_eq_self hlt,
        stripUrls_eq_self hcol]
    by_cases hy : clean_text x = ""
    · rw [hy]; rfl
    · have hylist : (clean_text x).toList = collapseWs x.toList := by rw [hct]; rfl
      have hmem : ∀ c ∈ (clean_text x).toList, c ∈ x.toList ∨ c = ' ' := by
        rw [hylist]; exact fun c hc => mem_collapseWs hc
      have hamp2 : '&' ∉ (clean_text x).toList := by
        intro m; rcases hmem _ m with hm | hm
        · exact hamp hm
        · exact absurd hm (by decide)
      have hlt2 : '<' ∉ (clean_text x).toList := by
        intro m; rcases hmem _ m with hm | hm
        · exact hlt hm
        · exact absurd hm (by decide)
      have hcol2 : ':' ∉ (clean_text x).toList := by
        intro m; rcases hmem _ m with hm | hm
        · exact hcol hm
        · exact absurd hm (by decide)
      rw [clean_text, if_neg hy, htmlUnescape_eq_self hamp2, stripTags_eq_self hlt2,
        stripUrls_eq_self hcol2, hylist, collapseWs_idem, ← hct]

/-!  Properties of the best/second-best tracking loop. -/

theorem scan_hi_mono (scores : List (String × ℚ)) (acc : Option String × ℚ × ℚ) :
    acc.2.1 ≤ (scores.foldl scanStep acc).2.1 := by
  induction scores generalizing acc with
  | nil => simp
  | cons p rest ih =>
    refine le_trans ?_ (ih (scanStep acc p))
    unfold scanStep
    split
    · exact le_of_lt (by assumption)
    · split <;> simp

theorem scan_hi_ge (scores : List (String × ℚ)) (acc : Option String × ℚ × ℚ)
    (p : String × ℚ) (hp : p ∈ scores) : p.2 ≤ (scores.foldl scanStep acc).2.1 := by
  induction scores generalizing acc with
  | nil => simp at hp
  | cons q rest ih =>
    rcases List.mem_cons.mp hp with hq | hq
    · subst hq
      refine le_trans ?_ (scan_hi_mono rest (scanStep acc p))
      unfold scanStep
      split
      · simp
      · split <;> simp_all
    · exact ih (scanStep acc q) hq

theorem scan_none (scores : List (String × ℚ)) (acc : Option String × ℚ × ℚ)
    (h : (scores.foldl scanStep acc).1 = none) :
    acc.1 = none ∧ (scores.foldl scanStep acc).2.1 = acc.2.1 := by
  induction scores generalizing acc with
  | nil => exact ⟨h, rfl⟩
  | cons p rest ih =>
    have step := ih (scanStep acc p) (by simpa using h)
    by_cases hgt : p.2 > acc.2.1
    · exfalso
      have : (scanStep acc p).1 = some p.1 := by unfold scanStep; rw [if_pos hgt]
      rw [this] at step
      exact Option.some_ne_none _ step.1
    · have h1 : (scanStep acc p).1 = acc.1 := by
        unfold scanStep
        rw [if_neg hgt]
        split <;> rfl
      have h2 : (scanStep acc p).2.1 = acc.2.1 := by
        unfold scanStep
        rw [if_neg hgt]
        split <;> rfl
      rw [h1] at step
      refine ⟨step.1, ?_⟩
      simp only [List.foldl_cons] at *
      rw [step.2, h2]

theorem bestIdOf_ne_none {scores : List (String × ℚ)}
    (h : ∃ p ∈ scores, (-1 : ℚ) < p.2) : bestIdOf scores ≠ none := by
  intro hnone
  rcases h with ⟨p, hp, hgt⟩
  have h2 := scan_none scores (none, -1, -1) hnone
  have h3 := scan_hi_ge scores (none, -1, -1) p hp
  rw [show (scores.foldl scanStep (none, -1, -1)) = scanScores scores from rfl] at h2 h3
  rw [h2.2] at h3
  exact absurd (lt_of_lt_of_le hgt h3) (by norm_num)

theorem secondScoreOf_short {scores : List (String × ℚ)} (h : scores.length ≤ 1) :
    secondScoreOf scores = -1 := by
  match scores, h with
  | [], _ => rfl
  | [p], _ =>
    unfold secondScoreOf scanScores
    simp only [List.foldl_cons, List.foldl_nil]
    unfold scanStep
    split
    · rfl
    · rfl

theorem bestScoreOf_ge {scores : List (String × ℚ)} {p : String × ℚ} (hp : p ∈ scores) :
    p.2 ≤ bestScoreOf scores :=
  scan_hi_ge scores (none, -1, -1) p hp

end Classifier

namespace Classifier

theorem classify_eq_core (text : String) (scores : List (String × ℚ)) (th mth : ℚ)
    (min_len : ℕ) (lb : String) (hne : clean_text text ≠ "")
    (hlen : min_len ≤ (clean_text text).length) :
    classify_text_with_scores text scores th mth min_len lb =
      classifyCore scores th mth lb := by
  unfold classify_text_with_scores
  have hcond : (decide (clean_text text = "") ||
      decide ((clean_text text).length < min_len)) = false := by
    simp [hne, Nat.not_lt.mpr hlen]
  simp only [hcond, Bool.false_eq_true, if_false]

theorem classify_short (text : String) (scores : List (String × ℚ)) (th mth : ℚ)
    (min_len : ℕ) (lb : String)
    (h : clean_text text = "" ∨ (clean_text text).length < min_len) :
    classify_text_with_scores text scores th mth min_len lb =
      ⟨lb, 0, true, "no_text", none, none⟩ := by
  unfold classify_text_with_scores
  have hcond : (decide (clean_text text = "") ||
      decide ((clean_text text).length < min_len)) = true := by
    rcases h with h | h <;> simp [h]
  simp only [hcond, if_true]

theorem core_fields (scores : List (String × ℚ)) (th mth : ℚ) (lb : String) :
    (classifyCore scores th mth lb).margin =
        (if secondScoreOf scores < 0 then none else marginOf scores) ∧
      (classifyCore scores th mth lb).runner_up_confidence =
        (if secondScoreOf scores < 0 then none else some (secondScoreOf scores)) ∧
      (classifyCore scores th mth lb).confidence = bestScoreOf scores := by
  simp only [classifyCore]
  split <;> exact ⟨rfl, rfl, rfl⟩

theorem core_margin_none_iff (scores : List (String × ℚ)) (th mth : ℚ) (lb : String) :
    (classifyCore scores th mth lb).margin = none ↔ secondScoreOf scores < 0 := by
  rw [(core_fields scores th mth lb).1]
  by_cases h : secondScoreOf scores < 0
  · simp [h]
  · simp [h, marginOf, not_lt.mp h]

theorem core_runner_none_iff (scores : List (String × ℚ)) (th mth : ℚ) (lb : String) :
    (classifyCore scores th mth lb).runner_up_confidence = none ↔
      secondScoreOf scores < 0 := by
  rw [(core_fields scores th mth lb).2.1]
  by_cases h : secondScoreOf scores < 0 <;> simp [h]

theorem acceptOf_iff (scores : List (String × ℚ)) (th mth : ℚ) :
    acceptOf scores th mth = true ↔
      (th ≤ bestScoreOf scores ∨ ∃ m, marginOf scores = some m ∧ mth ≤ m) := by
  rcases hm : marginOf scores with _ | m <;> simp [acceptOf, hm]

theorem core_reject (scores : List (String × ℚ)) (th mth : ℚ) (lb : String)
    (h : (!acceptOf scores th mth || decide (bestIdOf scores = none)) = true) :
    classifyCore scores th mth lb =
      ⟨lb, bestScoreOf scores, true, "low_confidence",
        if secondScoreOf scores < 0 then none else some (secondScoreOf scores),
        if secondScoreOf scores < 0 then none else marginOf scores⟩ := by
  simp only [classifyCore]
  rw [if_pos h]

theorem core_ok (scores : List (String × ℚ)) (th mth : ℚ) (lb : String)
    (h : (!acceptOf scores th mth || decide (bestIdOf scores = none)) = false) :
    classifyCore scores th mth lb =
      ⟨(bestIdOf scores).getD lb, bestScoreOf scores, false, "ok",
        if secondScoreOf scores < 0 then none else some (secondScoreOf scores),
        if secondScoreOf scores < 0 then none else marginOf scores⟩ := by
  simp only [classifyCore]
  rw [if_neg (by simp [h])]

theorem core_accept_iff (scores : List (String × ℚ)) (th mth : ℚ) (lb : String)
    (hbest : bestIdOf scores ≠ none) :
    ((classifyCore scores th mth lb).needs_review = false ∧
        (classifyCore scores th mth lb).reason = "ok") ↔
      (th ≤ bestScoreOf scores ∨ ∃ m, marginOf scores = some m ∧ mth ≤ m) := by
  rw [← acceptOf_iff scores th mth]
  cases hacc : acceptOf scores th mth with
  | true =>
    rw [core_ok scores th mth lb (by simp [hacc, hbest])]
    simp
  | false =>
    rw [core_reject scores th mth lb (by simp [hacc])]
    simp

theorem core_empty (th mth : ℚ) (lb : String) :
    classifyCore [] th mth lb = ⟨lb, -1, true, "low_confidence", none, none⟩ := by
  have h2 : secondScoreOf [] = -1 := rfl
  rw [core_reject [] th mth lb (by simp [bestIdOf, scanScores])]
  rw [h2]
  norm_num
  rfl

end Classifier

/-!  Lemmas comparing the two `valid_phrase` implementations (claim C5). -/

/-- The tokens by which the anchor-mining generic deny list is larger than the
anchor-extraction one, per language branch. -/
def extraGenericTokens (lang : String) : List String :=
  if lang = "en" then ["many", "various", "such", "including", "week", "month", "year"]
  else ["plusieurs", "divers", "semaine", "mois", "an", "a dit"]

theorem generic_deny_en_perm :
    BuildL1Anchors.GENERIC_DENY_EN.Perm
      (AnchorExtraction.GENERIC_DENY_EN ++ extraGenericTokens "en") := by
  decide

theorem generic_deny_fr_perm :
    BuildL1Anchors.GENERIC_DENY_FR.Perm
      (AnchorExtraction.GENERIC_DENY_FR ++ extraGenericTokens "fr") := by
  decide

theorem generic_deny_en_split (t : String) :
    BuildL1Anchors.GENERIC_DENY_EN.contains t =
      (AnchorExtraction.GENERIC_DENY_EN.contains t || (extraGenericTokens "en").contains t) := by
  have h : ∀ l : List String, l.contains t = decide (t ∈ l) := fun l => List.elem_eq_mem t l
  rw [h, h, h, ← Bool.decide_or, decide_eq_decide,
    generic_deny_en_perm.mem_iff, List.mem_append]

theorem generic_deny_fr_split (t : String) :
    BuildL1Anchors.GENERIC_DENY_FR.contains t =
      (AnchorExtraction.GENERIC_DENY_FR.contains t || (extraGenericTokens "fr").contains t) := by
  have h : ∀ l : List String, l.contains t = decide (t ∈ l) := fun l => List.elem_eq_mem t l
  rw [h, h, h, ← Bool.decide_or, decide_eq_decide,
    generic_deny_fr_perm.mem_iff, List.mem_append]

theorem any_congr_of (f g : String → Bool) :
    ∀ ts : List String, (∀ t ∈ ts, f t = g t) → ts.any f = ts.any g := by
  intro ts h
  induction ts with
  | nil => rfl
  | cons t ts ih =>
    simp only [List.any_cons]
    rw [h t (by simp), ih (fun x hx => h x (List.mem_cons_of_mem _ hx))]

theorem generic_deny_split (lang : String) (t : String) :
    (if lang = "en" then BuildL1Anchors.GENERIC_DENY_EN
      else BuildL1Anchors.GENERIC_DENY_FR).contains t =
      ((if lang = "en" then AnchorExtraction.GENERIC_DENY_EN
         else AnchorExtraction.GENERIC_DENY_FR).contains t ||
        (extraGenericTokens lang).contains t) := by
  by_cases hl : lang = "en"
  · rw [if_pos hl, if_pos hl, show extraGenericTokens lang = extraGenericTokens "en" by rw [hl]]
    exact generic_deny_en_split t
  · rw [if_neg hl, if_neg hl]
    have hfr : extraGenericTokens lang = extraGenericTokens "fr" := by
      rw [extraGenericTokens, extraGenericTokens, if_neg hl, if_neg (by decide : ¬("fr" = "en"))]
    rw [hfr]
    exact generic_deny_fr_split t

theorem contains_generic_eq (toks : List String) (lang : String)
    (hgen : ∀ t ∈ toks, (extraGenericTokens lang).contains t = false) :
    BuildL1Anchors.contains_generic toks lang = AnchorExtraction.contains_generic toks lang := by
  unfold BuildL1Anchors.contains_generic AnchorExtraction.contains_generic
  exact any_congr_of _ _ toks
    (fun t ht => by rw [generic_deny_split lang t, hgen t ht, Bool.or_false])

theorem numeric_heavy_false (toks : List String)
    (hdig : ∀ t ∈ toks, ∀ c ∈ t.toList, c.isDigit = false) :
    AnchorExtraction.numeric_heavy toks = false := by
  unfold AnchorExtraction.numeric_heavy
  have hfil : toks.filter (fun t => t.toList.any Char.isDigit) = [] := by
    rw [List.filter_eq_nil_iff]
    intro t ht
    simp only [Bool.not_eq_true, List.any_eq_false]
    intro c hc
    exact hdig t ht c hc
  rw [hfil]
  simp

theorem valid_phrase_agree (toks : List String) (lang : String) (min_chars : ℕ)
    (h2 : 2 ≤ toks.length)
    (hdig : ∀ t ∈ toks, ∀ c ∈ t.toList, c.isDigit = false)
    (hdeny : AnchorExtraction.deny_phrase_hit (String.intercalate " " toks) = false)
    (htok : ∀ t ∈ toks, AnchorExtraction.DENY_TOKENS.contains t = false)
    (hchar : ∀ t ∈ toks, t.length ≠ 1)
    (hgen : ∀ t ∈ toks, (extraGenericTokens lang).contains t = false) :
    AnchorExtraction.valid_phrase toks lang min_chars =
      (BuildL1Anchors.valid_phrase toks lang min_chars).1 := by
  have hne : toks.isEmpty = false := by
    cases toks with
    | nil => simp at h2
    | cons a b => rfl
  have hn1 : ¬(toks.length = 1) := by omega
  have hgeq := contains_generic_eq toks lang hgen
  have hnum := numeric_heavy_false toks hdig
  have htokany : (toks.any fun t => AnchorExtraction.DENY_TOKENS.contains t) = false := by
    simp only [List.any_eq_false, Bool.not_eq_true]
    exact htok
  have hcharany : (toks.any fun t => decide (t.length = 1)) = false := by
    simp only [List.any_eq_false, Bool.not_eq_true]
    intro t ht
    simpa using hchar t ht
  have hstop : (if lang = "en" then BuildL1Anchors.STOP_EN else BuildL1Anchors.STOP_FR) =
      (if lang = "en" then AnchorExtraction.STOP_EN else AnchorExtraction.STOP_FR) := by
    split <;> rfl
  have hbnd : BuildL1Anchors.boundary_stopword = AnchorExtraction.boundary_stopword := rfl
  simp only [AnchorExtraction.valid_phrase, BuildL1Anchors.valid_phrase, hne,
    Bool.false_eq_true, if_false, hstop, hbnd, hgeq, hnum, hdeny, htokany, hcharany,
    Bool.and_false, if_neg hn1, apply_ite (Prod.fst (α := Bool) (β := String))]

namespace Classifier

/-- The anchors value (after flattening) is a plain list, so the prototype
concatenation succeeds. -/
def isListAnchors : AnchorsField → Bool
  | .list _ => true
  | _ => false

theorem map_ok_iff {α β : Type} (e : Except String α) (f : α → β) :
    (∃ o, e.map f = Except.ok o) ↔ (∃ o, e = Except.ok o) := by
  cases e <;> simp [Except.map]

theorem load_items_ok_iff (nodes : List TaxNode) :
    (∃ out, load_items nodes = Except.ok out) ↔
      ∀ n ∈ nodes, truthyId n = true → isListAnchors (flattenAnchors n.anchors) = true := by
  induction nodes with
  | nil => simp [load_items]
  | cons n rest ih =>
    rcases hid : n.id with _ | cid
    · have hpn : processNode n = .ok none := by simp only [processNode, hid]
      have htr : truthyId n = false := by simp only [truthyId, hid]
      rw [show load_items (n :: rest) = load_items rest by rw [load_items, hpn]]
      rw [ih]
      constructor
      · intro h m hm
        rcases List.mem_cons.mp hm with hm | hm
        · subst hm; rw [htr]; intro hx; exact absurd hx (by simp)
        · exact h m hm
      · intro h m hm; exact h m (List.mem_cons_of_mem _ hm)
    · by_cases hcid : cid = ""
      · have hpn : processNode n = .ok none := by
          simp only [processNode, hid, if_pos hcid]
        have htr : truthyId n = false := by simp only [truthyId, hid]; simp [hcid]
        rw [show load_items (n :: rest) = load_items rest by rw [load_items, hpn]]
        rw [ih]
        constructor
        · intro h m hm
          rcases List.mem_cons.mp hm with hm | hm
          · subst hm; rw [htr]; intro hx; exact absurd hx (by simp)
          · exact h m hm
        · intro h m hm; exact h m (List.mem_cons_of_mem _ hm)
      · have htr : truthyId n = true := by simp only [truthyId, hid]; simp [hcid]
        cases hfa : flattenAnchors n.anchors with
        | list xs =>
          have hpn : processNode n = .ok (some (cid, xs)) := by
            simp only [processNode, hid, if_neg hcid, hfa]
          rw [show load_items (n :: rest) = (load_items rest).map ((cid, xs) :: ·) by
            rw [load_items, hpn]]
          rw [map_ok_iff, ih]
          constructor
          · intro h m hm
            rcases List.mem_cons.mp hm with hm | hm
            · subst hm; intro _; rw [hfa]; rfl
            · exact h m hm
          · intro h m hm; exact h m (List.mem_cons_of_mem _ hm)
        | map en fr =>
          exfalso
          have hno : ∀ a : AnchorsField, flattenAnchors a ≠ AnchorsField.map en fr := by
            intro a; cases a <;> simp [flattenAnchors]
          exact hno _ hfa
        | str s =>
          have hpn : processNode n = .error "TypeError" := by
            simp only [processNode, hid, if_neg hcid, hfa]
          rw [show load_items (n :: rest) = Except.error "TypeError" by rw [load_items, hpn]]
          constructor
          · intro h; exact absurd h (by simp)
          · intro h
            have := h n (by simp) htr
            rw [hfa] at this
            exact absurd this (by simp [isListAnchors])
        | num k =>
          have hpn : processNode n = .error "TypeError" := by
            simp only [processNode, hid, if_neg hcid, hfa]
          rw [show load_items (n :: rest) = Except.error "TypeError" by rw [load_items, hpn]]
          constructor
          · intro h; exact absurd h (by simp)
          · intro h
            have := h n (by simp) htr
            rw [hfa] at this
            exact absurd this (by simp [isListAnchors])
        | null =>
          have hpn : processNode n = .error "TypeError" := by
            simp only [processNode, hid, if_neg hcid, hfa]
          rw [show load_items (n :: rest) = Except.error "TypeError" by rw [load_items, hpn]]
          constructor
          · intro h; exact absurd h (by simp)
          · intro h
            have := h n (by simp) htr
            rw [hfa] at this
            exact absurd this (by simp [isListAnchors])

theorem cache_decision_iff (p : CachePayload) (live : LiveCfg) :
    load_centroids_outcome (some p) live = LoadOutcome.fromCache ↔
      ((payloadModel p = none ∨ payloadModel p = some live.model_name) ∧
        (p.taxonomy_path = none ∨ p.taxonomy_path = some live.taxonomy_path) ∧
        (p.taxonomy_mtime = none ∨ p.taxonomy_mtime = some live.taxonomy_mtime) ∧
        (p.taxonomy_version = none ∨ p.taxonomy_version = live.taxonomy_version) ∧
        (p.device = none ∨ p.device = some live.device) ∧
        p.categories ≠ []) := by
  have hb : (cache_ok p live && !p.categories.isEmpty) = true ↔
      ((payloadModel p = none ∨ payloadModel p = some live.model_name) ∧
        (p.taxonomy_path = none ∨ p.taxonomy_path = some live.taxonomy_path) ∧
        (p.taxonomy_mtime = none ∨ p.taxonomy_mtime = some live.taxonomy_mtime) ∧
        (p.taxonomy_version = none ∨ p.taxonomy_version = live.taxonomy_version) ∧
        (p.device = none ∨ p.device = some live.device) ∧
        p.categories ≠ []) := by
    simp [cache_ok, List.isEmpty_iff, and_assoc]
  rw [show load_centroids_outcome (some p) live =
    (if cache_ok p live && !p.categories.isEmpty then LoadOutcome.fromCache
     else LoadOutcome.recomputed) from rfl]
  split_ifs with h
  · exact iff_of_true rfl (hb.mp h)
  · exact iff_of_false (by simp) (fun hr => h (hb.mpr hr))

end Classifier

namespace Classifier

theorem core_category (scores : List (String × ℚ)) (th mth : ℚ) (lb : String)
    (c : String) (hc : bestIdOf scores = some c)
    (hok : (classifyCore scores th mth lb).needs_review = false) :
    (classifyCore scores th mth lb).category_id = c := by
  cases hacc : (!acceptOf scores th mth || decide (bestIdOf scores = none)) with
  | true => rw [core_reject scores th mth lb hacc] at hok; exact absurd hok (by simp)
  | false => rw [core_ok scores th mth lb hacc]; simp [hc]

end Classifier

/-!  Concrete inputs shared by the witnesses and counterexamples. -/

/-- A text whose cleaned form is itself and is comfortably longer than the
default `min_len = 30`. -/
def sampleText : String := "the championship game was played downtown"

/-- The synthetic dual-accept case of the specification:
`best = 0.40`, `second = 0.10`. -/
def sampleScores : List (String × ℚ) := [("sports", mkRat 2 5), ("finance", mkRat 1 10)]

/-- Two categories whose second-best cosine score is negative. -/
def negSecondScores : List (String × ℚ) := [("a", mkRat 1 2), ("b", mkRat (-1) 10)]

/-- A node with a truthy id whose `anchors` field is a plain string. -/
def badAnchorsNode : Classifier.TaxNode :=
  { id := some "c1", label_en := some "Label", anchors := Classifier.AnchorsField.str "breaking news" }

/-- A live configuration for the cache decision. -/
def liveCfgDemo : Classifier.LiveCfg :=
  { model_name := "paraphrase-multilingual-mpnet-base-v2"
    taxonomy_path := "/shared/lumen_taxonomy.json"
    taxonomy_mtime := 5
    taxonomy_version := some "3.1.0"
    device := "cpu" }

/-- A cached payload whose `model_name` key is absent and whose other fields
match `liveCfgDemo`. -/
def noModelPayload : Classifier.CachePayload :=
  { model_name := none
    model := none
    taxonomy_path := some "/shared/lumen_taxonomy.json"
    taxonomy_mtime := some 5
    taxonomy_version := some "3.1.0"
    device := some "cpu"
    categories := ["cat1"] }

/-- A cached payload whose `model_name` is present but different. -/
def wrongModelPayload : Classifier.CachePayload :=
  { model_name := some "other-model"
    model := none
    taxonomy_path := some "/shared/lumen_taxonomy.json"
    taxonomy_mtime := some 5
    taxonomy_version := some "3.1.0"
    device := some "cpu"
    categories := ["cat1"] }

/-- C1: on text passing the length gate, and with at least one category whose
cosine score exceeds the `-1.0` tracking floor (so a best category exists),
`classify_text_with_scores` accepts — returns the best category with
`needs_review = false` and `reason = "ok"` — exactly when
`best_score ≥ threshold` or the margin is defined and `≥ margin_threshold`. -/
theorem claim_C1 (text : String) (scores : List (String × ℚ)) (th mth : ℚ)
    (min_len : ℕ) (lb : String)
    (hne : Classifier.clean_text text ≠ "")
    (hlen : min_len ≤ (Classifier.clean_text text).length)
    (hbest : ∃ p ∈ scores, (-1 : ℚ) < p.2) :
    (((Classifier.classify_text_with_scores text scores th mth min_len lb).needs_review = false ∧
        (Classifier.classify_text_with_scores text scores th mth min_len lb).reason = "ok") ↔
      (th ≤ Classifier.bestScoreOf scores ∨
        ∃ m, Classifier.marginOf scores = some m ∧ mth ≤ m)) ∧
    (∀ c, Classifier.bestIdOf scores = some c →
      (Classifier.classify_text_with_scores text scores th mth min_len lb).needs_review = false →
      (Classifier.classify_text_with_scores text scores th mth min_len lb).category_id = c) := by
  rw [Classifier.classify_eq_core text scores th mth min_len lb hne hlen]
  refine ⟨Classifier.core_accept_iff scores th mth lb (Classifier.bestIdOf_ne_none hbest), ?_⟩
  intro c hc hok
  exact Classifier.core_category scores th mth lb c hc hok

/-- C1 witness: the dual-accept case `best = 0.40`, `second = 0.10`,
`threshold = 0.5`, `margin_threshold = 0.2` is accepted (margin `0.30 ≥ 0.2`)
although `best < threshold`. -/
theorem claim_C1_witness :
    (Classifier.clean_text sampleText ≠ "" ∧
      30 ≤ (Classifier.clean_text sampleText).length ∧
      ∃ p ∈ sampleScores, (-1 : ℚ) < p.2) ∧
    (Classifier.classify_text_with_scores sampleText sampleScores (mkRat 1 2) (mkRat 1 5)
        30 "other").needs_review = false ∧
    (Classifier.classify_text_with_scores sampleText sampleScores (mkRat 1 2) (mkRat 1 5)
        30 "other").reason = "ok" ∧
    ¬(mkRat 1 2 ≤ Classifier.bestScoreOf sampleScores) := by
  have h := (claim_C1 sampleText sampleScores (mkRat 1 2) (mkRat 1 5) 30 "other"
    (by decide) (by decide) (by decide)).1.mpr
    (Or.inr ⟨mkRat 3 10, by with_unfolding_all rfl, by decide⟩)
  exact ⟨⟨by decide, by decide, by decide⟩, h.1, h.2, by decide⟩

/-- C2 counterexample: the short-text result carries `reason = "no_text"`,
not `reason = "short_text"` as the claim states. -/
theorem claim_C2_counterexample :
    (Classifier.classify_text_with_scores "hi" [("a", 1)] (mkRat 36 100) (mkRat 7 100)
        30 "other").reason = "no_text" ∧
    (Classifier.classify_text_with_scores "hi" [("a", 1)] (mkRat 36 100) (mkRat 7 100)
        30 "other").reason ≠ "short_text" := by
  constructor
  · with_unfolding_all rfl
  · intro h
    rw [show (Classifier.classify_text_with_scores "hi" [("a", 1)] (mkRat 36 100)
      (mkRat 7 100) 30 "other").reason = "no_text" from by with_unfolding_all rfl] at h
    exact absurd h (by decide)

/-- C2 amended: on empty-or-short cleaned text, `classify_text_with_scores`
returns `{category_id := low_bucket, confidence := 0, needs_review := true,
reason := "no_text"}` immediately, and the result does not depend on the
category scores, so the embedding model is never consulted. -/
theorem claim_C2_amended (text : String) (scores scores2 : List (String × ℚ))
    (th mth : ℚ) (min_len : ℕ) (lb : String)
    (h : Classifier.clean_text text = "" ∨ (Classifier.clean_text text).length < min_len) :
    Classifier.classify_text_with_scores text scores th mth min_len lb =
      ⟨lb, 0, true, "no_text", none, none⟩ ∧
    Classifier.classify_text_with_scores text scores th mth min_len lb =
      Classifier.classify_text_with_scores text scores2 th mth min_len lb := by
  refine ⟨Classifier.classify_short text scores th mth min_len lb h, ?_⟩
  rw [Classifier.classify_short text scores th mth min_len lb h,
    Classifier.classify_short text scores2 th mth min_len lb h]

/-- C2 amended witness: the text "hi" is below `min_len = 30`. -/
theorem claim_C2_amended_witness :
    (Classifier.clean_text "hi" = "" ∨ (Classifier.clean_text "hi").length < 30) ∧
    Classifier.classify_text_with_scores "hi" [("a", 1)] (mkRat 36 100) (mkRat 7 100)
        30 "other" = ⟨"other", 0, true, "no_text", none, none⟩ ∧
    Classifier.classify_text_with_scores "hi" [("a", 1)] (mkRat 36 100) (mkRat 7 100)
        30 "other" =
      Classifier.classify_text_with_scores "hi" [] (mkRat 36 100) (mkRat 7 100)
        30 "other" := by
  have h := claim_C2_amended "hi" [("a", 1)] [] (mkRat 36 100) (mkRat 7 100) 30 "other"
    (by decide)
  exact ⟨by decide, h.1, h.2⟩

/-- C3 counterexample: with two categories whose second-best cosine score is
negative, the returned margin is `null` although the classifier holds two
categories, refuting "margin is null iff fewer than two categories". -/
theorem claim_C3_counterexample :
    (Classifier.classify_text_with_scores sampleText negSecondScores (mkRat 36 100)
        (mkRat 7 100) 30 "other").margin = none ∧
    negSecondScores.length = 2 ∧
    30 ≤ (Classifier.clean_text sampleText).length := by
  refine ⟨by with_unfolding_all rfl, by decide, by decide⟩

/-- C3 amended: on gate-passing text the margin (and runner-up confidence) is
`null` exactly when the tracked second-best score is negative — in particular
whenever fewer than two categories exist, but also with two or more categories
when the runner-up cosine is below zero; when the tracked second-best score is
nonnegative, `margin = best - second_best`, and the best score bounds every
category score from above. -/
theorem claim_C3_amended (text : String) (scores : List (String × ℚ)) (th mth : ℚ)
    (min_len : ℕ) (lb : String)
    (hne : Classifier.clean_text text ≠ "")
    (hlen : min_len ≤ (Classifier.clean_text text).length) :
    ((Classifier.classify_text_with_scores text scores th mth min_len lb).margin = none ↔
      Classifier.secondScoreOf scores < 0) ∧
    (0 ≤ Classifier.secondScoreOf scores →
      (Classifier.classify_text_with_scores text scores th mth min_len lb).margin =
        some (Classifier.bestScoreOf scores - Classifier.secondScoreOf scores)) ∧
    ((Classifier.classify_text_with_scores text scores th mth min_len lb).runner_up_confidence =
        none ↔ Classifier.secondScoreOf scores < 0) ∧
    (scores.length ≤ 1 →
      (Classifier.classify_text_with_scores text scores th mth min_len lb).margin = none) ∧
    (∀ p ∈ scores, p.2 ≤ Classifier.bestScoreOf scores) := by
  rw [Classifier.classify_eq_core text scores th mth min_len lb hne hlen]
  refine ⟨Classifier.core_margin_none_iff scores th mth lb, ?_,
    Classifier.core_runner_none_iff scores th mth lb, ?_,
    fun p hp => Classifier.bestScoreOf_ge hp⟩
  · intro hsec
    rw [(Classifier.core_fields scores th mth lb).1, if_neg (not_lt.mpr hsec),
      Classifier.marginOf, if_pos hsec]
  · intro hshort
    rw [Classifier.core_margin_none_iff scores th mth lb,
      Classifier.secondScoreOf_short hshort]
    norm_num

/-- C3 amended witness. -/
theorem claim_C3_amended_witness :
    (Classifier.clean_text sampleText ≠ "" ∧
      30 ≤ (Classifier.clean_text sampleText).length) ∧
    (((Classifier.classify_text_with_scores sampleText negSecondScores (mkRat 36 100)
        (mkRat 7 100) 30 "other").margin = none ↔
      Classifier.secondScoreOf negSecondScores < 0) ∧
    (0 ≤ Classifier.secondScoreOf negSecondScores →
      (Classifier.classify_text_with_scores sampleText negSecondScores (mkRat 36 100)
          (mkRat 7 100) 30 "other").margin =
        some (Classifier.bestScoreOf negSecondScores -
          Classifier.secondScoreOf negSecondScores)) ∧
    ((Classifier.classify_text_with_scores sampleText negSecondScores (mkRat 36 100)
        (mkRat 7 100) 30 "other").runner_up_confidence = none ↔
      Classifier.secondScoreOf negSecondScores < 0) ∧
    (negSecondScores.length ≤ 1 →
      (Classifier.classify_text_with_scores sampleText negSecondScores (mkRat 36 100)
          (mkRat 7 100) 30 "other").margin = none) ∧
    (∀ p ∈ negSecondScores, p.2 ≤ Classifier.bestScoreOf negSecondScores)) :=
  ⟨⟨by decide, by decide⟩,
   claim_C3_amended sampleText negSecondScores (mkRat 36 100) (mkRat 7 100) 30 "other"
     (by decide) (by decide)⟩

/-- C4 counterexample: a cached payload whose `model_name` key is absent (so
it does not equal the live model name) is nevertheless used, because each
`cache_ok` conjunct also accepts `None`. -/
theorem claim_C4_counterexample :
    Classifier.load_centroids_outcome (some noModelPayload) liveCfgDemo =
      Classifier.LoadOutcome.fromCache ∧
    noModelPayload.model_name ≠ some liveCfgDemo.model_name := by
  exact ⟨by decide, by decide⟩

/-- C4 amended: a cached payload is used iff every one of its present
(non-`None`) fields — model name (with the legacy `model` fallback),
taxonomy path, mtime, version, device — matches the live configuration and
the cached category map is non-empty; a present but different model name
forces recomputation, and the recompute path overwrites a configured cache
file. -/
theorem claim_C4_amended (p : Classifier.CachePayload) (live : Classifier.LiveCfg)
    (cc : String) (hcc : cc ≠ "") :
    (Classifier.load_centroids_outcome (some p) live = Classifier.LoadOutcome.fromCache ↔
      ((Classifier.payloadModel p = none ∨
          Classifier.payloadModel p = some live.model_name) ∧
        (p.taxonomy_path = none ∨ p.taxonomy_path = some live.taxonomy_path) ∧
        (p.taxonomy_mtime = none ∨ p.taxonomy_mtime = some live.taxonomy_mtime) ∧
        (p.taxonomy_version = none ∨ p.taxonomy_version = live.taxonomy_version) ∧
        (p.device = none ∨ p.device = some live.device) ∧
        p.categories ≠ [])) ∧
    (∀ m, Classifier.payloadModel p = some m → m ≠ live.model_name →
      Classifier.load_centroids_outcome (some p) live = Classifier.LoadOutcome.recomputed ∧
      Classifier.overwrites_cache (some cc)
        (Classifier.load_centroids_outcome (some p) live) = true) := by
  refine ⟨Classifier.cache_decision_iff p live, ?_⟩
  intro m hm hne
  have hrec : Classifier.load_centroids_outcome (some p) live =
      Classifier.LoadOutcome.recomputed := by
    cases hout : Classifier.load_centroids_outcome (some p) live with
    | fromCache =>
      have hx := (Classifier.cache_decision_iff p live).mp hout
      rcases hx.1 with h | h
      · rw [hm] at h; exact absurd h (by simp)
      · rw [hm] at h
        injection h with h2
        exact absurd h2 hne
    | recomputed => rfl
  refine ⟨hrec, ?_⟩
  rw [hrec]
  simp [Classifier.overwrites_cache, hcc]

/-- C4 amended witness: a payload differing only in `model_name` is rejected
and the cache file is overwritten. -/
theorem claim_C4_amended_witness :
    ("/shared/lumen_classifier_centroids.pt" ≠ "") ∧
    (Classifier.load_centroids_outcome (some wrongModelPayload) liveCfgDemo =
        Classifier.LoadOutcome.fromCache ↔
      ((Classifier.payloadModel wrongModelPayload = none ∨
          Classifier.payloadModel wrongModelPayload = some liveCfgDemo.model_name) ∧
        (wrongModelPayload.taxonomy_path = none ∨
          wrongModelPayload.taxonomy_path = some liveCfgDemo.taxonomy_path) ∧
        (wrongModelPayload.taxonomy_mtime = none ∨
          wrongModelPayload.taxonomy_mtime = some liveCfgDemo.taxonomy_mtime) ∧
        (wrongModelPayload.taxonomy_version = none ∨
          wrongModelPayload.taxonomy_version = liveCfgDemo.taxonomy_version) ∧
        (wrongModelPayload.device = none ∨
          wrongModelPayload.device = some liveCfgDemo.device) ∧
        wrongModelPayload.categories ≠ [])) ∧
    Classifier.load_centroids_outcome (some wrongModelPayload) liveCfgDemo =
      Classifier.LoadOutcome.recomputed ∧
    Classifier.overwrites_cache (some "/shared/lumen_classifier_centroids.pt")
      (Classifier.load_centroids_outcome (some wrongModelPayload) liveCfgDemo) = true := by
  have h := claim_C4_amended wrongModelPayload liveCfgDemo
    "/shared/lumen_classifier_centroids.pt" (by decide)
  have h2 := h.2 "other-model" (by decide) (by decide)
  exact ⟨by decide, h.1, h2.1, h2.2⟩

/-- C5 counterexample: the single alphabetic token "pixel" of length five is
rejected by the anchor-extraction predicate (which wants length at least six)
and accepted by the anchor-mining predicate (length at least five), so the two
predicates differ. -/
theorem claim_C5_counterexample :
    AnchorExtraction.valid_phrase ["pixel"] "en" 4 = false ∧
    (BuildL1Anchors.valid_phrase ["pixel"] "en" 4).1 = true := by
  exact ⟨by decide, by decide⟩

/-- C5 amended: the two predicates are not identical; they agree on every
phrase of at least two tokens in which the checks private to one side are
inert: no token carries a digit, the joined phrase hits no boilerplate
pattern, no token is on the global deny list, no token is a single character,
and no token lies in the anchor-mining generic deny surplus. -/
theorem claim_C5_amended (toks : List String) (lang : String) (min_chars : ℕ)
    (h2 : 2 ≤ toks.length)
    (hdig : ∀ t ∈ toks, ∀ c ∈ t.toList, c.isDigit = false)
    (hdeny : AnchorExtraction.deny_phrase_hit (String.intercalate " " toks) = false)
    (htok : ∀ t ∈ toks, AnchorExtraction.DENY_TOKENS.contains t = false)
    (hchar : ∀ t ∈ toks, t.length ≠ 1)
    (hgen : ∀ t ∈ toks, (extraGenericTokens lang).contains t = false) :
    AnchorExtraction.valid_phrase toks lang min_chars =
      (BuildL1Anchors.valid_phrase toks lang min_chars).1 :=
  valid_phrase_agree toks lang min_chars h2 hdig hdeny htok hchar hgen

/-- C5 amended witness: the specification test vector. -/
theorem claim_C5_amended_witness :
    (2 ≤ (["waterfront", "redevelopment", "plan"] : List String).length ∧
      (∀ t ∈ (["waterfront", "redevelopment", "plan"] : List String),
        ∀ c ∈ t.toList, c.isDigit = false) ∧
      AnchorExtraction.deny_phrase_hit
        (String.intercalate " " ["waterfront", "redevelopment", "plan"]) = false ∧
      (∀ t ∈ (["waterfront", "redevelopment", "plan"] : List String),
        AnchorExtraction.DENY_TOKENS.contains t = false) ∧
      (∀ t ∈ (["waterfront", "redevelopment", "plan"] : List String), t.length ≠ 1) ∧
      (∀ t ∈ (["waterfront", "redevelopment", "plan"] : List String),
        (extraGenericTokens "en").contains t = false)) ∧
    AnchorExtraction.valid_phrase ["waterfront", "redevelopment", "plan"] "en" 4 =
      (BuildL1Anchors.valid_phrase ["waterfront", "redevelopment", "plan"] "en" 4).1 ∧
    AnchorExtraction.valid_phrase ["waterfront", "redevelopment", "plan"] "en" 4 = true := by
  have h := claim_C5_amended ["waterfront", "redevelopment", "plan"] "en" 4
    (by decide) (by decide) (by decide) (by decide) (by decide) (by decide)
  exact ⟨⟨by decide, by decide, by decide, by decide, by decide, by decide⟩, h, by decide⟩

/-- C6: the anchor-mining candidate score is the add-one smoothed log odds
plus the fixed multi-word bonus `0.08 * (ngram_length - 1)`, and at
`df_in = 10, n_in = 50, df_out = 2, n_out = 500` the smoothed log-odds term
equals `ln(((10+1)/(50+2)) / ((2+1)/(500+2)))` exactly. -/
theorem claim_C6 (ngram_len df_in n_in df_out n_out : ℕ) :
    BuildL1Anchors.anchor_candidate_score ngram_len df_in n_in df_out n_out =
      Real.log ((((df_in : ℝ) + 1) / ((n_in : ℝ) + 2)) /
          (((df_out : ℝ) + 1) / ((n_out : ℝ) + 2))) +
        0.08 * ((ngram_len : ℝ) - 1) ∧
    BuildL1Anchors.log_odds 10 50 2 500 =
      Real.log (((10 + 1 : ℝ) / (50 + 2)) / ((2 + 1 : ℝ) / (500 + 2))) := by
  constructor
  · rfl
  · unfold BuildL1Anchors.log_odds
    norm_num

/-- C7: with zero categories, every gate-passing classification falls to the
low bucket with `needs_review = true`, for every threshold and margin
threshold (the accept test cannot name a best category, so even a threshold
at or below the `-1.0` floor ends in the reject branch). -/
theorem claim_C7 (text : String) (th mth : ℚ) (min_len : ℕ) (lb : String)
    (hne : Classifier.clean_text text ≠ "")
    (hlen : min_len ≤ (Classifier.clean_text text).length) :
    (Classifier.classify_text_with_scores text [] th mth min_len lb).category_id = lb ∧
    (Classifier.classify_text_with_scores text [] th mth min_len lb).needs_review = true ∧
    (Classifier.classify_text_with_scores text [] th mth min_len lb).reason =
      "low_confidence" := by
  rw [Classifier.classify_eq_core text [] th mth min_len lb hne hlen,
    Classifier.core_empty th mth lb]
  exact ⟨rfl, rfl, rfl⟩

/-- C7 witness, with a threshold well below any cosine score. -/
theorem claim_C7_witness :
    (Classifier.clean_text sampleText ≠ "" ∧
      30 ≤ (Classifier.clean_text sampleText).length) ∧
    (Classifier.classify_text_with_scores sampleText [] (mkRat (-5) 1) (mkRat 7 100)
        30 "other").category_id = "other" ∧
    (Classifier.classify_text_with_scores sampleText [] (mkRat (-5) 1) (mkRat 7 100)
        30 "other").needs_review = true := by
  have h := claim_C7 sampleText (mkRat (-5) 1) (mkRat 7 100) 30 "other"
    (by decide) (by decide)
  exact ⟨⟨by decide, by decide⟩, h.1, h.2.1⟩

/-- C8 counterexample: a node with a truthy id whose anchors field is a plain
string makes `load_taxonomy` raise a `TypeError` at the prototype
concatenation instead of being treated as an empty anchor list. -/
theorem claim_C8_counterexample :
    Classifier.load_items [badAnchorsNode] = Except.error "TypeError" ∧
    Classifier.load_items [badAnchorsNode] ≠ Except.ok [("c1", [])] := by
  refine ⟨rfl, ?_⟩
  intro h
  rw [show Classifier.load_items [badAnchorsNode] = Except.error "TypeError" from rfl] at h
  exact Except.noConfusion h

/-- C8 amended: the load completes exactly when every node with a truthy id
has anchors that are (after per-language flattening of a dict) a plain list;
a string or number anchors field on a truthy-id node aborts the whole load
with a `TypeError`, while nodes with a falsy id are skipped first. -/
theorem claim_C8_amended (nodes : List Classifier.TaxNode) :
    (∃ out, Classifier.load_items nodes = Except.ok out) ↔
      ∀ n ∈ nodes, Classifier.truthyId n = true →
        Classifier.isListAnchors (Classifier.flattenAnchors n.anchors) = true :=
  Classifier.load_items_ok_iff nodes

/-- C9 counterexample: neither cleaner is idempotent.  The classifier cleaner
unescapes entities again on a second pass, and the article cleaner's
markdown-link rule can produce a fresh markdown link. -/
theorem claim_C9_counterexample :
    Classifier.clean_text "&amp;amp;" = "&amp;" ∧
    Classifier.clean_text (Classifier.clean_text "&amp;amp;") = "&" ∧
    Classifier.clean_text (Classifier.clean_text "&amp;amp;") ≠
      Classifier.clean_text "&amp;amp;" ∧
    ArticleCleaning.clean_text_rules "[[x](u)](v)" none = "[x](v)" ∧
    ArticleCleaning.clean_text_rules (ArticleCleaning.clean_text_rules "[[x](u)](v)" none)
        none = "x" ∧
    ArticleCleaning.clean_text_rules (ArticleCleaning.clean_text_rules "[[x](u)](v)" none)
        none ≠ ArticleCleaning.clean_text_rules "[[x](u)](v)" none := by
  refine ⟨by decide, by decide, by decide, by decide, by decide, by decide⟩

/-- C9 amended: idempotence fails in general for both cleaners; for the
classifier cleaner it does hold on every input free of ampersands, left angle
brackets and colons, where only the whitespace collapse acts. -/
theorem claim_C9_amended (x : String)
    (h : ∀ c ∈ x.toList, c ≠ '&' ∧ c ≠ '<' ∧ c ≠ ':') :
    Classifier.clean_text (Classifier.clean_text x) = Classifier.clean_text x :=
  Classifier.clean_text_idem_restricted x h

/-- C9 amended witness. -/
theorem claim_C9_amended_witness :
    (∀ c ∈ ("hello   markdown  world " : String).toList,
      c ≠ '&' ∧ c ≠ '<' ∧ c ≠ ':') ∧
    Classifier.clean_text (Classifier.clean_text "hello   markdown  world ") =
      Classifier.clean_text "hello   markdown  world " :=
  ⟨by decide, claim_C9_amended "hello   markdown  world " (by decide)⟩

/-- C10: the engine getter builds the classifier only when the module global
is unset; any later call returns the stored instance unchanged and ignores
every argument. -/
theorem claim_C10 (args args2 : Classifier.EngineArgs) (env env2 : Classifier.EngineEnv)
    (e : Classifier.Engine) :
    Classifier.get_classifier_engine none args env =
      (Classifier.mkEngine args env, some (Classifier.mkEngine args env)) ∧
    Classifier.get_classifier_engine (some e) args2 env2 = (e, some e) :=
  ⟨rfl, rfl⟩
